import Mathlib

/-!
Shallow embedding of the ya-rand CRNG core and numeric transformation layer.

The embedding covers:
* the ChaCha8 keystream engine of `src/secure/` — the stored 48-byte state
  (`ChaCha` in `secure/util.rs`), the `Machine` backends (`soft.rs`,
  `sse2.rs`, `avx2.rs`, `avx512.rs`, `neon.rs`) and `ChaCha::block`;
* the buffered secure generator `SecureRng` of `secure/mod.rs`
  (`u64`, `try_new`, `fill_bytes`);
* the generic numeric layer of `rng.rs` / `util.rs` (`wide_mul`, `bound`,
  `bound_inclusive`, `bits`, `shuffle`).

Machine integers are modelled as `Nat` with explicit reduction modulo
`2 ^ 32` / `2 ^ 64` at exactly the places the Rust code wraps.  The stored
ChaCha words are `Fin (2 ^ 32)`, mirroring the fact that the stored state is
exactly 48 bytes.  Word sources (`u64()` producers) are modelled as streams
of `Fin (2 ^ 64)` values, mirroring the `u64` return type.
-/

set_option maxHeartbeats 1000000

namespace YaRand

/-! ### 32-bit word primitives shared by every backend -/

/-- Wrapping 32-bit addition (`wrapping_add` / `_mm_add_epi32` on one lane). -/
def add32 (x y : Nat) : Nat := (x + y) % 2 ^ 32

/-- 32-bit rotate left, written as or-of-shifts exactly like the
`rotate_left_epi32` macros of `sse2.rs` / `avx2.rs` / `neon.rs`
(and equal to `i32::rotate_left` / `_mm512_rol_epi32` on 32-bit values). -/
def rotl32 (x n : Nat) : Nat := ((x <<< n) % 2 ^ 32) ||| (x >>> (32 - n))

/-- One ChaCha ARX quarter round on four words, the exact operation sequence
of `quarter_round` in every backend:
`a+=b; d^=a; d<<<=16; c+=d; b^=c; b<<<=12; a+=b; d^=a; d<<<=8; c+=d; b^=c; b<<<=7`. -/
def arx (a b c d : Nat) : Nat × Nat × Nat × Nat :=
  let a := add32 a b
  let d := rotl32 (d ^^^ a) 16
  let c := add32 c d
  let b := rotl32 (b ^^^ c) 12
  let a := add32 a b
  let d := rotl32 (d ^^^ a) 8
  let c := add32 c d
  let b := rotl32 (b ^^^ c) 7
  (a, b, c, d)

/-- Type of a quarter-round function.  The round schedules below are stated
over an arbitrary `f : QR` and instantiated with `arx`; the structural
(index/shuffle) reasoning is independent of the ARX internals. -/
abbrev QR := Nat → Nat → Nat → Nat → Nat × Nat × Nat × Nat

/-! ### The soft backend (`secure/soft.rs`)

One lane (one of the four independent chacha matrices in
`soft::Matrix::state : [[i32; 16]; 4]`) is a flat list of 16 words.  -/

/-- `soft::Matrix::quarter_round(a, b, c, d)`: apply the quarter round to the
four positions `a b c d` of a flat 16-word matrix. -/
def qrIdxWith (f : QR) (m : List Nat) (a b c d : Nat) : List Nat :=
  let v := f (m.getD a 0) (m.getD b 0) (m.getD c 0) (m.getD d 0)
  (((m.set a v.1).set b v.2.1).set c v.2.2.1).set d v.2.2.2

/-- `soft::Matrix::double_round`: the four column quarter rounds followed by
the four diagonal quarter rounds, with the exact index quadruples of
`soft.rs`. -/
def softDoubleRoundWith (f : QR) (m : List Nat) : List Nat :=
  let m := qrIdxWith f m 0 4 8 12
  let m := qrIdxWith f m 1 5 9 13
  let m := qrIdxWith f m 2 6 10 14
  let m := qrIdxWith f m 3 7 11 15
  let m := qrIdxWith f m 0 5 10 15
  let m := qrIdxWith f m 1 6 11 12
  let m := qrIdxWith f m 2 7 8 13
  let m := qrIdxWith f m 3 4 9 14
  m

/-- The soft double round with the concrete ARX quarter round. -/
def softDoubleRound (m : List Nat) : List Nat := softDoubleRoundWith arx m

/-- Bounded iteration (`for _ in 0..n { state.double_round() }`). -/
def iterate {α : Type} : Nat → (α → α) → α → α
  | 0, _, x => x
  | n + 1, f, x => iterate n f (f x)

/-! ### The stored ChaCha state (`secure/util.rs`)

`ChaCha` stores rows B, C, D of the chacha matrix as twelve 32-bit words
(48 bytes).  Row D is `[counter-low, counter-high, nonce, nonce]`; the
64-bit counter is the little-endian pair of its first two words
(the `Row.i64x2[0]` view). -/

structure ChaCha where
  b0 : Fin (2 ^ 32)
  b1 : Fin (2 ^ 32)
  b2 : Fin (2 ^ 32)
  b3 : Fin (2 ^ 32)
  c0 : Fin (2 ^ 32)
  c1 : Fin (2 ^ 32)
  c2 : Fin (2 ^ 32)
  c3 : Fin (2 ^ 32)
  d0 : Fin (2 ^ 32)
  d1 : Fin (2 ^ 32)
  d2 : Fin (2 ^ 32)
  d3 : Fin (2 ^ 32)

/-- Build a `ChaCha` state from twelve word values (reduced mod `2 ^ 32`). -/
def mkState (b0 b1 b2 b3 c0 c1 c2 c3 d0 d1 d2 d3 : Nat) : ChaCha :=
  ⟨⟨b0 % 2 ^ 32, Nat.mod_lt _ (by decide)⟩, ⟨b1 % 2 ^ 32, Nat.mod_lt _ (by decide)⟩,
   ⟨b2 % 2 ^ 32, Nat.mod_lt _ (by decide)⟩, ⟨b3 % 2 ^ 32, Nat.mod_lt _ (by decide)⟩,
   ⟨c0 % 2 ^ 32, Nat.mod_lt _ (by decide)⟩, ⟨c1 % 2 ^ 32, Nat.mod_lt _ (by decide)⟩,
   ⟨c2 % 2 ^ 32, Nat.mod_lt _ (by decide)⟩, ⟨c3 % 2 ^ 32, Nat.mod_lt _ (by decide)⟩,
   ⟨d0 % 2 ^ 32, Nat.mod_lt _ (by decide)⟩, ⟨d1 % 2 ^ 32, Nat.mod_lt _ (by decide)⟩,
   ⟨d2 % 2 ^ 32, Nat.mod_lt _ (by decide)⟩, ⟨d3 % 2 ^ 32, Nat.mod_lt _ (by decide)⟩⟩

/-- The stored 64-bit counter: the `i64x2[0]` view of row D. -/
def ChaCha.counter (s : ChaCha) : Nat := s.d0.val + 2 ^ 32 * s.d1.val

/-- Lane 0 of `soft::Matrix::new`: `ROW_A` constants followed by the stored
rows B, C, D, unmodified. -/
def softLane0 (s : ChaCha) : List Nat :=
  [0x61707865, 0x3320646e, 0x79622d32, 0x6b206574,
   s.b0.val, s.b1.val, s.b2.val, s.b3.val,
   s.c0.val, s.c1.val, s.c2.val, s.c3.val,
   s.d0.val, s.d1.val, s.d2.val, s.d3.val]

/-- Lane `k` (for `k = 1, 2, 3`) of `soft::Matrix::new`:
`chacha[k][3].u64x2[0] = chacha[k][3].u64x2[0].wrapping_add(k)` — the 64-bit
counter view of row D is incremented by the lane index with wrap. -/
def softLaneK (s : ChaCha) (k : Nat) : List Nat :=
  let c := (s.d0.val + 2 ^ 32 * s.d1.val + k) % 2 ^ 64
  [0x61707865, 0x3320646e, 0x79622d32, 0x6b206574,
   s.b0.val, s.b1.val, s.b2.val, s.b3.val,
   s.c0.val, s.c1.val, s.c2.val, s.c3.val,
   c % 2 ^ 32, c / 2 ^ 32, s.d2.val, s.d3.val]

/-- Word-wise wrapping addition of two matrices (`impl Add for Matrix`). -/
def addWords (x y : List Nat) : List Nat := List.zipWith add32 x y

/-- One lane of `ChaCha::block`: run `CHACHA_DOUBLE_ROUNDS = 4` double rounds
and add the pre-round snapshot (`state + old_state`). -/
def softLaneBlock (l : List Nat) : List Nat := addWords (iterate 4 softDoubleRound l) l

/-- `soft::Matrix::fill_block`: the four processed lanes, in lane order,
flattened (`transmute` of `[[i32; 16]; 4]`). -/
def softBlockWords (s : ChaCha) : List Nat :=
  softLaneBlock (softLane0 s) ++ softLaneBlock (softLaneK s 1) ++
  softLaneBlock (softLaneK s 2) ++ softLaneBlock (softLaneK s 3)

/-- Little-endian pairing of 32-bit words into 64-bit words (the
`[u64; BUF_LEN]` view of the flattened output). -/
def u64sOfWords : List Nat → List Nat
  | w0 :: w1 :: rest => (w0 + 2 ^ 32 * w1) :: u64sOfWords rest
  | _ => []

/-- The `[u64; 32]` output of one `ChaCha::block` call (soft backend). -/
def softBlockOut (s : ChaCha) : List Nat := u64sOfWords (softBlockWords s)

/-- Little-endian bytes of one `u64`. -/
def bytesOfU64 (v : Nat) : List Nat := (List.range 8).map fun i => v / 2 ^ (8 * i) % 256

/-- Little-endian byte stream of a `[u64]` buffer (the `transmute` to bytes
used by `fetch_blocks` in the tests and by `fill_bytes`). -/
def bytesOfU64s (vs : List Nat) : List Nat := (vs.map bytesOfU64).flatten

/-- Counter advance of `ChaCha::block`:
`self.row_d.i64x2[0] = self.row_d.i64x2[0].wrapping_add(DEPTH)` with
`DEPTH = 4`. -/
def ChaCha.advance (s : ChaCha) : ChaCha :=
  let c := (s.d0.val + 2 ^ 32 * s.d1.val + 4) % 2 ^ 64
  { s with d0 := ⟨c % 2 ^ 32, Nat.mod_lt _ (by decide)⟩,
           d1 := ⟨c / 2 ^ 32 % 2 ^ 32, Nat.mod_lt _ (by decide)⟩ }

/-- `ChaCha::block`: emit four keystream blocks computed from the current
state (the machine is built before the increment) and advance the stored
counter by 4. -/
def ChaCha.block (s : ChaCha) : List Nat × ChaCha := (softBlockOut s, s.advance)

/-- Iterated `block` calls (only the state component). -/
def ChaCha.blockIter : Nat → ChaCha → ChaCha
  | 0, s => s
  | n + 1, s => ChaCha.blockIter n (ChaCha.block s).2

/-! ### The 128-bit-row backends (`secure/sse2.rs`, `neon.rs`, and the
128-bit lanes of `avx2.rs` / `avx512.rs`)

A 128-bit vector register holding four 32-bit words is a `V4`; one chacha
matrix held as four row registers `[a, b, c, d]` is a `Rows`. -/

structure V4 where
  w0 : Nat
  w1 : Nat
  w2 : Nat
  w3 : Nat

structure Rows where
  a : V4
  b : V4
  c : V4
  d : V4

/-- The vectorized quarter round (`sse2::Matrix::quarter_round` and its
neon/avx2/avx512 counterparts): the ARX sequence applied word-wise to the
four columns of one `Rows` lane at once. -/
def arxRowsWith (f : QR) (r : Rows) : Rows :=
  let q0 := f r.a.w0 r.b.w0 r.c.w0 r.d.w0
  let q1 := f r.a.w1 r.b.w1 r.c.w1 r.d.w1
  let q2 := f r.a.w2 r.b.w2 r.c.w2 r.d.w2
  let q3 := f r.a.w3 r.b.w3 r.c.w3 r.d.w3
  ⟨⟨q0.1, q1.1, q2.1, q3.1⟩,
   ⟨q0.2.1, q1.2.1, q2.2.1, q3.2.1⟩,
   ⟨q0.2.2.1, q1.2.2.1, q2.2.2.1, q3.2.2.1⟩,
   ⟨q0.2.2.2, q1.2.2.2, q2.2.2.2, q3.2.2.2⟩⟩

/-- `_mm_shuffle_epi32(v, _MM_SHUFFLE(0, 3, 2, 1))` = `vextq_u32(v, v, 1)`. -/
def rotW1 (v : V4) : V4 := ⟨v.w1, v.w2, v.w3, v.w0⟩

/-- `_mm_shuffle_epi32(v, _MM_SHUFFLE(1, 0, 3, 2))` = `vextq_u32(v, v, 2)`. -/
def rotW2 (v : V4) : V4 := ⟨v.w2, v.w3, v.w0, v.w1⟩

/-- `_mm_shuffle_epi32(v, _MM_SHUFFLE(2, 1, 0, 3))` = `vextq_u32(v, v, 3)`. -/
def rotW3 (v : V4) : V4 := ⟨v.w3, v.w0, v.w1, v.w2⟩

/-- `make_diagonal`: rotate rows a, c, d so each former diagonal becomes a
column. -/
def diagonalize (r : Rows) : Rows := ⟨rotW3 r.a, r.b, rotW1 r.c, rotW2 r.d⟩

/-- `unmake_diagonal`: the inverse of `make_diagonal`. -/
def undiagonalize (r : Rows) : Rows := ⟨rotW1 r.a, r.b, rotW3 r.c, rotW2 r.d⟩

/-- `double_round` of the vector backends: column quarter round, then
diagonalize, column quarter round again, undiagonalize. -/
def rowsDoubleRoundWith (f : QR) (r : Rows) : Rows :=
  undiagonalize (arxRowsWith f (diagonalize (arxRowsWith f r)))

/-- The vector double round with the concrete ARX quarter round. -/
def rowsDoubleRound (r : Rows) : Rows := rowsDoubleRoundWith arx r

/-- Word-wise wrapping addition of two `V4` registers (`_mm_add_epi32`,
`vaddq_u32`). -/
def addV4 (x y : V4) : V4 := ⟨add32 x.w0 y.w0, add32 x.w1 y.w1, add32 x.w2 y.w2, add32 x.w3 y.w3⟩

/-- Row-wise addition of two lanes (`impl Add for Matrix`). -/
def addRows (x y : Rows) : Rows := ⟨addV4 x.a y.a, addV4 x.b y.b, addV4 x.c y.c, addV4 x.d y.d⟩

/-- The 16 words of one `Rows` lane in memory order
(`transmute` of `[__m128i; 4]`). -/
def rowsWords (r : Rows) : List Nat :=
  [r.a.w0, r.a.w1, r.a.w2, r.a.w3, r.b.w0, r.b.w1, r.b.w2, r.b.w3,
   r.c.w0, r.c.w1, r.c.w2, r.c.w3, r.d.w0, r.d.w1, r.d.w2, r.d.w3]

/-- One lane of a vector-backend `block`: 4 double rounds, add the snapshot,
flatten. -/
def rowsLaneBlock (r : Rows) : List Nat := rowsWords (addRows (iterate 4 rowsDoubleRound r) r)

/-- The broadcast rows of `Machine::new`: `ROW_A` constants plus the stored
rows B, C, D. -/
def rowsOf (s : ChaCha) : Rows :=
  ⟨⟨0x61707865, 0x3320646e, 0x79622d32, 0x6b206574⟩,
   ⟨s.b0.val, s.b1.val, s.b2.val, s.b3.val⟩,
   ⟨s.c0.val, s.c1.val, s.c2.val, s.c3.val⟩,
   ⟨s.d0.val, s.d1.val, s.d2.val, s.d3.val⟩⟩

/-- `_mm_add_epi64(d, _mm_set_epi64x(khi, klo))`: independent wrapping 64-bit
addition on the two little-endian qword views of a 128-bit register. -/
def addI64x2 (d : V4) (klo khi : Nat) : V4 :=
  let q0 := (d.w0 + 2 ^ 32 * d.w1 + klo) % 2 ^ 64
  let q1 := (d.w2 + 2 ^ 32 * d.w3 + khi) % 2 ^ 64
  ⟨q0 % 2 ^ 32, q0 / 2 ^ 32, q1 % 2 ^ 32, q1 / 2 ^ 32⟩

/-- Lane `k` of `sse2::Matrix::new` for `k = 1, 2, 3`:
`state.state[k][3] = _mm_add_epi64(state.state[k][3], _mm_set_epi64x(0, k))`. -/
def sse2LaneK (s : ChaCha) (k : Nat) : Rows :=
  let r := rowsOf s
  ⟨r.a, r.b, r.c, addI64x2 r.d k 0⟩

/-- The `[u64; 32]` output of one `block` call under the sse2 backend:
lane 0 is the broadcast state unmodified, lanes 1–3 carry the 64-bit counter
offsets, and `fill_block` flattens the lanes in order. -/
def sse2BlockOut (s : ChaCha) : List Nat :=
  u64sOfWords (rowsLaneBlock (rowsOf s) ++ rowsLaneBlock (sse2LaneK s 1) ++
               rowsLaneBlock (sse2LaneK s 2) ++ rowsLaneBlock (sse2LaneK s 3))

/-- An avx2 256-bit register: two 128-bit halves, each holding one lane's
row.  Every 256-bit intrinsic used by `avx2.rs` (`_mm256_add_epi32`,
`_mm256_xor_si256`, `_mm256_slli/srli_epi32`, `_mm256_shuffle_epi32`)
operates on the two 128-bit halves independently, so one avx2 `__m256i` row
evolves exactly as two independent `V4` rows. -/
structure Rows2 where
  lo : Rows
  hi : Rows

/-- The avx2 double round: the shared 128-bit-lane double round applied to
both halves of the register set. -/
def avx2DoubleRound (r : Rows2) : Rows2 := ⟨rowsDoubleRound r.lo, rowsDoubleRound r.hi⟩

/-- The avx2 feed-forward addition (`_mm256_add_epi32`), half-wise. -/
def avx2Add (x y : Rows2) : Rows2 := ⟨addRows x.lo y.lo, addRows x.hi y.hi⟩

/-- First avx2 register set of `avx2::Matrix::new`:
`_mm256_broadcastsi128_si256` copies the state into both halves, then
`_mm256_add_epi64(row_d, _mm256_set_epi64x(0, 0, 0, 1))` adds 1 to the low
half's counter qword and 0 to every other qword. -/
def avx2S0 (s : ChaCha) : Rows2 :=
  let r := rowsOf s
  ⟨⟨r.a, r.b, r.c, addI64x2 r.d 1 0⟩, ⟨r.a, r.b, r.c, addI64x2 r.d 0 0⟩⟩

/-- Second avx2 register set:
`_mm256_add_epi64(row_d, _mm256_set_epi64x(0, 2, 0, 3))` adds 3 to the low
half's counter qword and 2 to the high half's. -/
def avx2S1 (s : ChaCha) : Rows2 :=
  let r := rowsOf s
  ⟨⟨r.a, r.b, r.c, addI64x2 r.d 3 0⟩, ⟨r.a, r.b, r.c, addI64x2 r.d 2 0⟩⟩

/-- The `[u64; 32]` output of `avx2::Matrix::fill_block`:
`_mm256_extracti128_si256(_, 1)` (the high halves) first for each set, so the
lane order is `s0.hi, s0.lo, s1.hi, s1.lo`. -/
def avx2BlockOut (s : ChaCha) : List Nat :=
  let o0 := avx2Add (iterate 4 avx2DoubleRound (avx2S0 s)) (avx2S0 s)
  let o1 := avx2Add (iterate 4 avx2DoubleRound (avx2S1 s)) (avx2S1 s)
  u64sOfWords (rowsWords o0.hi ++ rowsWords o0.lo ++ rowsWords o1.hi ++ rowsWords o1.lo)

/-- Lane `k` of `neon::Matrix::new` for `k = 1, 2, 3`:
`vaddq_u32(row_d, vreinterpretq_u32_u64(vcombine_u64(vcreate_u64(0), vcreate_u64(k))))`.
`vcombine_u64(lo, hi)` puts its first argument in the LOW 64-bit lane, so the
reinterpreted 32-bit addend vector is `[0, 0, k, 0]`: the word-wise addition
lands on word 2 (the first nonce word), not on the 64-bit counter. -/
def neonLaneK (s : ChaCha) (k : Nat) : Rows :=
  let r := rowsOf s
  ⟨r.a, r.b, r.c, ⟨add32 r.d.w0 0, add32 r.d.w1 0, add32 r.d.w2 k, add32 r.d.w3 0⟩⟩

/-- The `[u64; 32]` output of one `block` call under the neon backend
(`fill_block` is a direct transmute, lanes in order, like sse2). -/
def neonBlockOut (s : ChaCha) : List Nat :=
  u64sOfWords (rowsLaneBlock (rowsOf s) ++ rowsLaneBlock (neonLaneK s 1) ++
               rowsLaneBlock (neonLaneK s 2) ++ rowsLaneBlock (neonLaneK s 3))

/-- The 128-bit lane of the avx512 state carrying counter offset `k`:
`avx512::Machine::new` broadcasts the state with `_mm512_broadcast_i32x4`,
then performs ONE `_mm512_add_epi32` of row D with
`_mm512_set_epi64(0, 0, 0, 1, 0, 2, 0, 3)`, whose 32-bit word view adds `k`
to word 0 of the 128-bit lane holding offset `k` — a 32-bit addition that
cannot carry into the counter's high word. -/
def avx512LaneK (s : ChaCha) (k : Nat) : Rows :=
  let r := rowsOf s
  ⟨r.a, r.b, r.c, ⟨add32 r.d.w0 k, add32 r.d.w1 0, add32 r.d.w2 0, add32 r.d.w3 0⟩⟩

/-- The `[u64; 32]` output of one `block` call under the avx512 backend:
`fill_block` extracts the 128-bit lanes from index 3 down to 0, which is
counter-offset order 0, 1, 2, 3. -/
def avx512BlockOut (s : ChaCha) : List Nat :=
  u64sOfWords (rowsLaneBlock (avx512LaneK s 0) ++ rowsLaneBlock (avx512LaneK s 1) ++
               rowsLaneBlock (avx512LaneK s 2) ++ rowsLaneBlock (avx512LaneK s 3))

/-! ### The buffered secure generator (`secure/mod.rs`) -/

/-- `SecureRng`: cursor, 32-word output buffer, and the internal `ChaCha`. -/
structure SecureRng where
  index : Nat
  buf : List Nat
  internal : ChaCha

/-- `SecureRng::u64`, instrumented: returns the drawn word, the buffer
position actually read, and the new state.  Mirrors
`if index >= buf.len() { block(&mut buf); index = 0; }
result = buf[index]; index += 1;`. -/
def SecureRng.u64Full (r : SecureRng) : Nat × Nat × SecureRng :=
  let r :=
    if r.buf.length ≤ r.index then
      { index := 0, buf := (ChaCha.block r.internal).1, internal := (ChaCha.block r.internal).2 }
    else r
  (r.buf.getD r.index 0, r.index, { r with index := r.index + 1 })

/-- The state reached by `SecureRng::try_new` from a given seeded state:
cursor 0, buffer filled by one `block` call, counter already advanced. -/
def SecureRng.init (s : ChaCha) : SecureRng :=
  ⟨0, (ChaCha.block s).1, (ChaCha.block s).2⟩

/-- Iterate `k` calls of `SecureRng::u64` (state only). -/
def SecureRng.steps : Nat → SecureRng → SecureRng
  | 0, r => r
  | k + 1, r => SecureRng.steps k (r.u64Full).2.2

/-- Number of `ChaCha::block` refills triggered by the next `k` calls of
`SecureRng::u64`. -/
def SecureRng.refillCount : Nat → SecureRng → Nat
  | 0, _ => 0
  | k + 1, r =>
    (if r.buf.length ≤ r.index then 1 else 0) + SecureRng.refillCount k (r.u64Full).2.2

/-- The full-chunk loop of `fill_bytes`:
`dst.chunks_exact_mut(256).for_each(|chunk| block(chunk))` — each complete
256-byte chunk is filled directly by one `block` call. -/
def chunksLoop : Nat → ChaCha → List Nat × ChaCha
  | 0, s => ([], s)
  | n + 1, s =>
    let p := ChaCha.block s
    let rest := chunksLoop n p.2
    (bytesOfU64s p.1 ++ rest.1, rest.2)

/-- `SecureYARandGenerator::fill_bytes` for a destination of `len` bytes,
instrumented with the number of `block` calls: fill `len / 256` complete
chunks in place, then, if a partial remainder is left, generate one more
block into a scratch buffer and copy only the needed `len % 256` bytes. -/
def ChaCha.fillBytes (s : ChaCha) (len : Nat) : List Nat × ChaCha × Nat :=
  let full := chunksLoop (len / 256) s
  if len % 256 = 0 then (full.1, full.2, len / 256)
  else
    let p := ChaCha.block full.2
    (full.1 ++ (bytesOfU64s p.1).take (len % 256), p.2, len / 256 + 1)

/-! ### The numeric transformation layer (`rng.rs`, `util.rs`)

A word source is a stream of `u64` values (the successive results of
`self.u64()`) together with a cursor. -/

structure WordSrc where
  stream : Nat → Fin (2 ^ 64)
  pos : Nat

/-- Draw one fresh `u64` word from the source. -/
def WordSrc.next (g : WordSrc) : Nat × WordSrc :=
  ((g.stream g.pos).val, ⟨g.stream, g.pos + 1⟩)

/-- `util::wide_mul`: the 128-bit product of two `u64` values as
`(high, low)` 64-bit halves. -/
def wideMul (x y : Nat) : Nat × Nat :=
  let product := x * y % 2 ^ 128
  (product / 2 ^ 64, product % 2 ^ 64)

/-- `u64::wrapping_neg`. -/
def wrappingNeg64 (x : Nat) : Nat := (2 ^ 64 - x % 2 ^ 64) % 2 ^ 64

/-- The rejection loop of `Generator::bound`:
`while low < threshold { (high, low) = wide_mul(self.u64(), max) }`, with an
explicit iteration budget `fuel` (the Rust loop is unbounded but terminates
with probability 1; every theorem below holds for every budget). -/
def lemireLoop : Nat → WordSrc → Nat → Nat → Nat → Nat → Nat × WordSrc
  | 0, g, high, _low, _max, _threshold => (high, g)
  | fuel + 1, g, high, low, max, threshold =>
    if low < threshold then
      let w := g.next
      let p := wideMul w.1 max
      lemireLoop fuel w.2 p.1 p.2 max threshold
    else (high, g)

/-- `Generator::bound(max)`: Lemire's nearly-divisionless sampling of
`[0, max)`.  The division computing the threshold `(-max) mod max` runs only
inside the `low < max` branch. -/
def Generator.bound (fuel : Nat) (g : WordSrc) (max : Nat) : Nat × WordSrc :=
  let w := g.next
  let p := wideMul w.1 max
  if p.2 < max then
    let threshold := wrappingNeg64 max % max
    lemireLoop fuel w.2 p.1 p.2 max threshold
  else (p.1, w.2)

/-- `Generator::bound_inclusive(max) = bound(max + 1)`. -/
def Generator.boundInclusive (fuel : Nat) (g : WordSrc) (max : Nat) : Nat × WordSrc :=
  Generator.bound fuel g (max + 1)

/-- `Generator::bits(bit_count)`:
`self.u64() >> (u64::BITS - bit_count.min(u64::BITS))`.  Rust's `>>` on a
`u64` takes the shift amount modulo 64 in release builds (and panics on a
64-or-larger amount in debug builds), so the shift amount is modelled as
`(64 - min bitCount 64) % 64`: at `bit_count = 0` the source computes
`w >> 64`, which release builds mask to `w >> 0`, returning the full
word. -/
def Generator.bits (g : WordSrc) (bitCount : Nat) : Nat × WordSrc :=
  let w := g.next
  (w.1 >>> ((64 - min bitCount 64) % 64), w.2)

/-- `ptr::swap(slice_ptr.add(i), slice_ptr.add(j))` on a list. -/
def listSwap {α : Type} [Inhabited α] (l : List α) (i j : Nat) : List α :=
  (l.set i (l.getD j default)).set j (l.getD i default)

/-- The loop of `Generator::shuffle`:
`for i in (1..len).rev() { let j = bound_inclusive(i); swap(i, j) }`,
instrumented with the list of `(i, j)` index pairs used by the swaps. -/
def shuffleGo {α : Type} [Inhabited α] (fuel : Nat) :
    Nat → WordSrc → List α → List (Nat × Nat) → List α × WordSrc × List (Nat × Nat)
  | 0, g, l, acc => (l, g, acc)
  | i + 1, g, l, acc =>
    let j := Generator.boundInclusive fuel g (i + 1)
    shuffleGo fuel i j.2 (listSwap l (i + 1) j.1) ((i + 1, j.1) :: acc)

/-- `Generator::shuffle`: in-place Fisher–Yates, iterating the index from
`len - 1` down to `1`. -/
def Generator.shuffle {α : Type} [Inhabited α] (fuel : Nat) (g : WordSrc) (l : List α) :
    List α × WordSrc × List (Nat × Nat) :=
  shuffleGo fuel (l.length - 1) g l []


/-! ### Closed forms of the quarter-round schedules

Each lemma evaluates one `qrIdxWith` application on a literal 16-word
matrix; the double-round bridge below is assembled from them by rewriting,
with the quarter-round function kept abstract. -/

theorem qr_col0 (f : QR) (x0 x1 x2 x3 x4 x5 x6 x7 x8 x9 x10 x11 x12 x13 x14 x15 : Nat) :
    qrIdxWith f [x0, x1, x2, x3, x4, x5, x6, x7, x8, x9, x10, x11, x12, x13, x14, x15] 0 4 8 12 =
    [(f x0 x4 x8 x12).1, x1, x2, x3, (f x0 x4 x8 x12).2.1, x5, x6, x7,
     (f x0 x4 x8 x12).2.2.1, x9, x10, x11, (f x0 x4 x8 x12).2.2.2, x13, x14, x15] := rfl

theorem qr_col1 (f : QR) (x0 x1 x2 x3 x4 x5 x6 x7 x8 x9 x10 x11 x12 x13 x14 x15 : Nat) :
    qrIdxWith f [x0, x1, x2, x3, x4, x5, x6, x7, x8, x9, x10, x11, x12, x13, x14, x15] 1 5 9 13 =
    [x0, (f x1 x5 x9 x13).1, x2, x3, x4, (f x1 x5 x9 x13).2.1, x6, x7,
     x8, (f x1 x5 x9 x13).2.2.1, x10, x11, x12, (f x1 x5 x9 x13).2.2.2, x14, x15] := rfl

theorem qr_col2 (f : QR) (x0 x1 x2 x3 x4 x5 x6 x7 x8 x9 x10 x11 x12 x13 x14 x15 : Nat) :
    qrIdxWith f [x0, x1, x2, x3, x4, x5, x6, x7, x8, x9, x10, x11, x12, x13, x14, x15] 2 6 10 14 =
    [x0, x1, (f x2 x6 x10 x14).1, x3, x4, x5, (f x2 x6 x10 x14).2.1, x7,
     x8, x9, (f x2 x6 x10 x14).2.2.1, x11, x12, x13, (f x2 x6 x10 x14).2.2.2, x15] := rfl

theorem qr_col3 (f : QR) (x0 x1 x2 x3 x4 x5 x6 x7 x8 x9 x10 x11 x12 x13 x14 x15 : Nat) :
    qrIdxWith f [x0, x1, x2, x3, x4, x5, x6, x7, x8, x9, x10, x11, x12, x13, x14, x15] 3 7 11 15 =
    [x0, x1, x2, (f x3 x7 x11 x15).1, x4, x5, x6, (f x3 x7 x11 x15).2.1,
     x8, x9, x10, (f x3 x7 x11 x15).2.2.1, x12, x13, x14, (f x3 x7 x11 x15).2.2.2] := rfl

theorem qr_diag0 (f : QR) (x0 x1 x2 x3 x4 x5 x6 x7 x8 x9 x10 x11 x12 x13 x14 x15 : Nat) :
    qrIdxWith f [x0, x1, x2, x3, x4, x5, x6, x7, x8, x9, x10, x11, x12, x13, x14, x15] 0 5 10 15 =
    [(f x0 x5 x10 x15).1, x1, x2, x3, x4, (f x0 x5 x10 x15).2.1, x6, x7,
     x8, x9, (f x0 x5 x10 x15).2.2.1, x11, x12, x13, x14, (f x0 x5 x10 x15).2.2.2] := rfl

theorem qr_diag1 (f : QR) (x0 x1 x2 x3 x4 x5 x6 x7 x8 x9 x10 x11 x12 x13 x14 x15 : Nat) :
    qrIdxWith f [x0, x1, x2, x3, x4, x5, x6, x7, x8, x9, x10, x11, x12, x13, x14, x15] 1 6 11 12 =
    [x0, (f x1 x6 x11 x12).1, x2, x3, x4, x5, (f x1 x6 x11 x12).2.1, x7,
     x8, x9, x10, (f x1 x6 x11 x12).2.2.1, (f x1 x6 x11 x12).2.2.2, x13, x14, x15] := rfl

theorem qr_diag2 (f : QR) (x0 x1 x2 x3 x4 x5 x6 x7 x8 x9 x10 x11 x12 x13 x14 x15 : Nat) :
    qrIdxWith f [x0, x1, x2, x3, x4, x5, x6, x7, x8, x9, x10, x11, x12, x13, x14, x15] 2 7 8 13 =
    [x0, x1, (f x2 x7 x8 x13).1, x3, x4, x5, x6, (f x2 x7 x8 x13).2.1,
     (f x2 x7 x8 x13).2.2.1, x9, x10, x11, x12, (f x2 x7 x8 x13).2.2.2, x14, x15] := rfl

theorem qr_diag3 (f : QR) (x0 x1 x2 x3 x4 x5 x6 x7 x8 x9 x10 x11 x12 x13 x14 x15 : Nat) :
    qrIdxWith f [x0, x1, x2, x3, x4, x5, x6, x7, x8, x9, x10, x11, x12, x13, x14, x15] 3 4 9 14 =
    [x0, x1, x2, (f x3 x4 x9 x14).1, (f x3 x4 x9 x14).2.1, x5, x6, x7,
     x8, (f x3 x4 x9 x14).2.2.1, x10, x11, x12, x13, (f x3 x4 x9 x14).2.2.2, x15] := rfl

theorem rowsWords_mk (a0 a1 a2 a3 b0 b1 b2 b3 c0 c1 c2 c3 d0 d1 d2 d3 : Nat) :
    rowsWords ⟨⟨a0, a1, a2, a3⟩, ⟨b0, b1, b2, b3⟩, ⟨c0, c1, c2, c3⟩, ⟨d0, d1, d2, d3⟩⟩ =
    [a0, a1, a2, a3, b0, b1, b2, b3, c0, c1, c2, c3, d0, d1, d2, d3] := rfl

theorem arxRows_closed (f : QR) (a0 a1 a2 a3 b0 b1 b2 b3 c0 c1 c2 c3 d0 d1 d2 d3 : Nat) :
    arxRowsWith f ⟨⟨a0, a1, a2, a3⟩, ⟨b0, b1, b2, b3⟩, ⟨c0, c1, c2, c3⟩, ⟨d0, d1, d2, d3⟩⟩ =
    ⟨⟨(f a0 b0 c0 d0).1, (f a1 b1 c1 d1).1, (f a2 b2 c2 d2).1, (f a3 b3 c3 d3).1⟩,
     ⟨(f a0 b0 c0 d0).2.1, (f a1 b1 c1 d1).2.1, (f a2 b2 c2 d2).2.1, (f a3 b3 c3 d3).2.1⟩,
     ⟨(f a0 b0 c0 d0).2.2.1, (f a1 b1 c1 d1).2.2.1, (f a2 b2 c2 d2).2.2.1, (f a3 b3 c3 d3).2.2.1⟩,
     ⟨(f a0 b0 c0 d0).2.2.2, (f a1 b1 c1 d1).2.2.2, (f a2 b2 c2 d2).2.2.2, (f a3 b3 c3 d3).2.2.2⟩⟩ := rfl

theorem diagonalize_closed (a0 a1 a2 a3 b0 b1 b2 b3 c0 c1 c2 c3 d0 d1 d2 d3 : Nat) :
    diagonalize ⟨⟨a0, a1, a2, a3⟩, ⟨b0, b1, b2, b3⟩, ⟨c0, c1, c2, c3⟩, ⟨d0, d1, d2, d3⟩⟩ =
    ⟨⟨a3, a0, a1, a2⟩, ⟨b0, b1, b2, b3⟩, ⟨c1, c2, c3, c0⟩, ⟨d2, d3, d0, d1⟩⟩ := rfl

theorem undiagonalize_closed (a0 a1 a2 a3 b0 b1 b2 b3 c0 c1 c2 c3 d0 d1 d2 d3 : Nat) :
    undiagonalize ⟨⟨a0, a1, a2, a3⟩, ⟨b0, b1, b2, b3⟩, ⟨c0, c1, c2, c3⟩, ⟨d0, d1, d2, d3⟩⟩ =
    ⟨⟨a1, a2, a3, a0⟩, ⟨b0, b1, b2, b3⟩, ⟨c3, c0, c1, c2⟩, ⟨d2, d3, d0, d1⟩⟩ := rfl

/-- The structural heart of the cross-backend equivalence: one shuffle-based
vector double round computes exactly one index-based soft double round, for
any quarter-round function. -/
theorem doubleRound_bridge_with (f : QR) (r : Rows) :
    rowsWords (rowsDoubleRoundWith f r) = softDoubleRoundWith f (rowsWords r) := by
  obtain ⟨⟨a0, a1, a2, a3⟩, ⟨b0, b1, b2, b3⟩, ⟨c0, c1, c2, c3⟩, ⟨d0, d1, d2, d3⟩⟩ := r
  rw [softDoubleRoundWith, rowsWords_mk a0 a1 a2 a3 b0 b1 b2 b3 c0 c1 c2 c3 d0 d1 d2 d3]
  rw [qr_col0, qr_col1, qr_col2, qr_col3, qr_diag0, qr_diag1, qr_diag2, qr_diag3]
  rw [rowsDoubleRoundWith, arxRows_closed f a0 a1 a2 a3 b0 b1 b2 b3 c0 c1 c2 c3 d0 d1 d2 d3]
  rw [diagonalize_closed, arxRows_closed, undiagonalize_closed, rowsWords_mk]

theorem doubleRound_bridge (r : Rows) :
    rowsWords (rowsDoubleRound r) = softDoubleRound (rowsWords r) :=
  doubleRound_bridge_with arx r

theorem iterate_doubleRound_bridge (n : Nat) (r : Rows) :
    rowsWords (iterate n rowsDoubleRound r) = iterate n softDoubleRound (rowsWords r) := by
  induction n generalizing r with
  | zero => rfl
  | succ n ih =>
    show rowsWords (iterate n rowsDoubleRound (rowsDoubleRound r)) = _
    rw [ih (rowsDoubleRound r), doubleRound_bridge]
    rfl

theorem addRows_bridge (x y : Rows) :
    rowsWords (addRows x y) = addWords (rowsWords x) (rowsWords y) := by
  obtain ⟨⟨a0, a1, a2, a3⟩, ⟨b0, b1, b2, b3⟩, ⟨c0, c1, c2, c3⟩, ⟨d0, d1, d2, d3⟩⟩ := x
  obtain ⟨⟨e0, e1, e2, e3⟩, ⟨f0, f1, f2, f3⟩, ⟨g0, g1, g2, g3⟩, ⟨h0, h1, h2, h3⟩⟩ := y
  rfl

/-- A vector lane computes the same 16 output words as the soft lane it
broadcasts. -/
theorem laneBlock_bridge (r : Rows) : rowsLaneBlock r = softLaneBlock (rowsWords r) := by
  rw [rowsLaneBlock, softLaneBlock, addRows_bridge, iterate_doubleRound_bridge]

theorem rowsOf_words (s : ChaCha) : rowsWords (rowsOf s) = softLane0 s := rfl

theorem sse2LaneK_words (s : ChaCha) (k : Nat) : rowsWords (sse2LaneK s k) = softLaneK s k := by
  have h2 := s.d2.isLt
  have h3 := s.d3.isLt
  simp only [sse2LaneK, rowsOf, addI64x2, rowsWords, softLaneK, List.cons.injEq, and_true,
    true_and]
  omega

/-- The sse2 backend produces the same `[u64; 32]` block as the soft backend
on every stored state. -/
theorem sse2_block_eq_soft (s : ChaCha) : sse2BlockOut s = softBlockOut s := by
  rw [sse2BlockOut, softBlockOut, softBlockWords, laneBlock_bridge, laneBlock_bridge,
    laneBlock_bridge, laneBlock_bridge, rowsOf_words, sse2LaneK_words, sse2LaneK_words,
    sse2LaneK_words]

theorem avx2_iterate_split (n : Nat) (r : Rows2) :
    iterate n avx2DoubleRound r = ⟨iterate n rowsDoubleRound r.lo, iterate n rowsDoubleRound r.hi⟩ := by
  induction n generalizing r with
  | zero => rfl
  | succ n ih =>
    show iterate n avx2DoubleRound (avx2DoubleRound r) = _
    rw [ih]
    rfl

/-- Adding zero through the 64-bit qword view is the identity on a register
whose words are genuine 32-bit values. -/
theorem addI64x2_zero (d : V4) (h0 : d.w0 < 2 ^ 32) (h1 : d.w1 < 2 ^ 32)
    (h2 : d.w2 < 2 ^ 32) (h3 : d.w3 < 2 ^ 32) : addI64x2 d 0 0 = d := by
  obtain ⟨w0, w1, w2, w3⟩ := d
  simp only [addI64x2, V4.mk.injEq]
  simp only at h0 h1 h2 h3
  refine ⟨?_, ?_, ?_, ?_⟩ <;> omega

/-- The avx2 backend produces the same `[u64; 32]` block as the sse2 backend
on every stored state. -/
theorem avx2_block_eq_sse2 (s : ChaCha) : avx2BlockOut s = sse2BlockOut s := by
  have hz : addI64x2 (rowsOf s).d 0 0 = (rowsOf s).d :=
    addI64x2_zero _ s.d0.isLt s.d1.isLt s.d2.isLt s.d3.isLt
  rw [avx2BlockOut, avx2S0, avx2S1, avx2Add, avx2Add, avx2_iterate_split, avx2_iterate_split]
  rw [sse2BlockOut, sse2LaneK, sse2LaneK, sse2LaneK]
  simp only [hz]
  rfl

theorem avx2_block_eq_soft (s : ChaCha) : avx2BlockOut s = softBlockOut s :=
  (avx2_block_eq_sse2 s).trans (sse2_block_eq_soft s)


/-! ### Counter arithmetic -/

theorem counter_lt (s : ChaCha) : s.counter < 2 ^ 64 := by
  have h0 := s.d0.isLt
  have h1 := s.d1.isLt
  simp only [ChaCha.counter]
  omega

theorem counter_advance (s : ChaCha) : s.advance.counter = (s.counter + 4) % 2 ^ 64 := by
  simp only [ChaCha.advance, ChaCha.counter]
  omega

theorem block_fst (s : ChaCha) : (ChaCha.block s).1 = softBlockOut s := by
  simp only [ChaCha.block]

theorem block_snd (s : ChaCha) : (ChaCha.block s).2 = s.advance := by
  simp only [ChaCha.block]

theorem advance_frame (s : ChaCha) :
    s.advance.b0 = s.b0 ∧ s.advance.b1 = s.b1 ∧ s.advance.b2 = s.b2 ∧ s.advance.b3 = s.b3 ∧
    s.advance.c0 = s.c0 ∧ s.advance.c1 = s.c1 ∧ s.advance.c2 = s.c2 ∧ s.advance.c3 = s.c3 ∧
    s.advance.d2 = s.d2 ∧ s.advance.d3 = s.d3 := by
  refine ⟨rfl, rfl, rfl, rfl, rfl, rfl, rfl, rfl, rfl, rfl⟩

theorem counter_blockIter (n : Nat) (s : ChaCha) :
    (ChaCha.blockIter n s).counter = (s.counter + 4 * n) % 2 ^ 64 := by
  induction n generalizing s with
  | zero =>
    show s.counter = (s.counter + 0) % 2 ^ 64
    have := counter_lt s
    omega
  | succ n ih =>
    show (ChaCha.blockIter n s.advance).counter = _
    rw [ih, counter_advance]
    omega

/-! ### Buffer lengths -/

theorem qrIdxWith_length (f : QR) (m : List Nat) (a b c d : Nat) :
    (qrIdxWith f m a b c d).length = m.length := by
  simp [qrIdxWith]

theorem softDoubleRound_length (m : List Nat) :
    (softDoubleRound m).length = m.length := by
  simp [softDoubleRound, softDoubleRoundWith, qrIdxWith_length]

theorem iterate_softDoubleRound_length (n : Nat) (m : List Nat) :
    (iterate n softDoubleRound m).length = m.length := by
  induction n generalizing m with
  | zero => rfl
  | succ n ih =>
    show (iterate n softDoubleRound (softDoubleRound m)).length = _
    rw [ih, softDoubleRound_length]

theorem addWords_length (x y : List Nat) :
    (addWords x y).length = min x.length y.length := by
  simp [addWords]

theorem softLaneBlock_length (l : List Nat) : (softLaneBlock l).length = l.length := by
  simp [softLaneBlock, addWords_length, iterate_softDoubleRound_length]

theorem u64sOfWords_length : ∀ ws : List Nat, (u64sOfWords ws).length = ws.length / 2
  | [] => rfl
  | [x] => by simp [u64sOfWords]
  | _ :: _ :: t => by
    show (u64sOfWords t).length + 1 = _
    rw [u64sOfWords_length t]
    simp only [List.length_cons]
    omega

theorem softLane0_length (s : ChaCha) : (softLane0 s).length = 16 := rfl

theorem softLaneK_length (s : ChaCha) (k : Nat) : (softLaneK s k).length = 16 := rfl

theorem softBlockOut_length (s : ChaCha) : (softBlockOut s).length = 32 := by
  rw [softBlockOut, u64sOfWords_length, softBlockWords]
  simp only [List.length_append, softLaneBlock_length, softLane0_length, softLaneK_length]

theorem bytesOfU64_length (v : Nat) : (bytesOfU64 v).length = 8 := by
  simp [bytesOfU64]

theorem bytesOfU64s_length (vs : List Nat) : (bytesOfU64s vs).length = 8 * vs.length := by
  induction vs with
  | nil => rfl
  | cons v t ih =>
    simp only [bytesOfU64s, List.map_cons, List.flatten_cons, List.length_append,
      List.length_cons] at ih ⊢
    rw [bytesOfU64_length, ih]
    omega

/-! ### SecureRng buffering invariants and refill cadence -/

theorem u64Full_refill (i : Nat) (bl : List Nat) (st : ChaCha) (h : bl.length ≤ i) :
    SecureRng.u64Full ⟨i, bl, st⟩ =
      ((ChaCha.block st).1.getD 0 0, 0, ⟨1, (ChaCha.block st).1, (ChaCha.block st).2⟩) := by
  simp [SecureRng.u64Full, h]

theorem u64Full_read (i : Nat) (bl : List Nat) (st : ChaCha) (h : ¬ bl.length ≤ i) :
    SecureRng.u64Full ⟨i, bl, st⟩ = (bl.getD i 0, i, ⟨i + 1, bl, st⟩) := by
  simp [SecureRng.u64Full, h]

/-- Joint refill-cadence invariant: starting from cursor `i ≤ 32` over a
32-word buffer, `k` calls of `u64` trigger `(k + i + 31) / 32 - 1` refills,
and the stored counter advances by 4 per refill. -/
theorem refill_invariant : ∀ (k i : Nat) (bl : List Nat) (st : ChaCha), i ≤ 32 →
    bl.length = 32 →
    SecureRng.refillCount k ⟨i, bl, st⟩ = (k + i + 31) / 32 - 1 ∧
    (SecureRng.steps k ⟨i, bl, st⟩).internal.counter =
      (st.counter + 4 * SecureRng.refillCount k ⟨i, bl, st⟩) % 2 ^ 64
  | 0, i, bl, st, hi, _hl => by
    constructor
    · show 0 = (0 + i + 31) / 32 - 1
      omega
    · show st.counter = (st.counter + 4 * 0) % 2 ^ 64
      have := counter_lt st
      omega
  | k + 1, i, bl, st, hi, hl => by
    have hcnt : SecureRng.refillCount (k + 1) ⟨i, bl, st⟩ =
        (if bl.length ≤ i then 1 else 0) +
          SecureRng.refillCount k (SecureRng.u64Full ⟨i, bl, st⟩).2.2 := rfl
    have hstp : SecureRng.steps (k + 1) ⟨i, bl, st⟩ =
        SecureRng.steps k (SecureRng.u64Full ⟨i, bl, st⟩).2.2 := rfl
    by_cases hb : bl.length ≤ i
    · have hidx : i = 32 := by omega
      have hstate : (SecureRng.u64Full ⟨i, bl, st⟩).2.2 =
          ⟨1, (ChaCha.block st).1, (ChaCha.block st).2⟩ := by rw [u64Full_refill i bl st hb]
      have hblen : (ChaCha.block st).1.length = 32 := by
        rw [block_fst]
        exact softBlockOut_length st
      have hrec := refill_invariant k 1 (ChaCha.block st).1 (ChaCha.block st).2 (by omega) hblen
      have hadv : (ChaCha.block st).2.counter = (st.counter + 4) % 2 ^ 64 := by
        rw [block_snd]
        exact counter_advance st
      rw [hcnt, hstp, hstate, if_pos hb]
      constructor
      · rw [hrec.1]
        omega
      · rw [hrec.2, hadv]
        omega
    · have hstate : (SecureRng.u64Full ⟨i, bl, st⟩).2.2 = ⟨i + 1, bl, st⟩ := by
        rw [u64Full_read i bl st hb]
      have hrec := refill_invariant k (i + 1) bl st (by omega) hl
      rw [hcnt, hstp, hstate, if_neg hb]
      constructor
      · rw [hrec.1]
        omega
      · rw [hrec.2]
        have := counter_lt st
        omega


/-! ### fill_bytes accounting -/

theorem chunksLoop_state (n : Nat) (s : ChaCha) : (chunksLoop n s).2 = ChaCha.blockIter n s := by
  induction n generalizing s with
  | zero => rfl
  | succ n ih =>
    simp only [chunksLoop]
    rw [ih]
    rfl

theorem chunksLoop_length (n : Nat) (s : ChaCha) : (chunksLoop n s).1.length = 256 * n := by
  induction n generalizing s with
  | zero => rfl
  | succ n ih =>
    simp only [chunksLoop]
    rw [List.length_append, ih, bytesOfU64s_length, block_fst, softBlockOut_length]
    omega

theorem fillBytes_calls (s : ChaCha) (len : Nat) :
    (ChaCha.fillBytes s len).2.2 = (len + 255) / 256 := by
  by_cases h : len % 256 = 0
  · simp only [ChaCha.fillBytes, h, if_true]
    omega
  · simp only [ChaCha.fillBytes, h, if_false]
    omega

theorem fillBytes_counter (s : ChaCha) (len : Nat) :
    (ChaCha.fillBytes s len).2.1.counter = (s.counter + 4 * ((len + 255) / 256)) % 2 ^ 64 := by
  by_cases h : len % 256 = 0
  · simp only [ChaCha.fillBytes, h, if_true]
    rw [chunksLoop_state, counter_blockIter]
    have : (len + 255) / 256 = len / 256 := by omega
    rw [this]
  · simp only [ChaCha.fillBytes, h, if_false]
    have hsnd : (ChaCha.block (chunksLoop (len / 256) s).2).2.counter =
        ((chunksLoop (len / 256) s).2.counter + 4) % 2 ^ 64 := by
      rw [block_snd]
      exact counter_advance _
    rw [hsnd, chunksLoop_state, counter_blockIter]
    have : (len + 255) / 256 = len / 256 + 1 := by omega
    rw [this]
    omega

theorem fillBytes_length (s : ChaCha) (len : Nat) :
    (ChaCha.fillBytes s len).1.length = len := by
  by_cases h : len % 256 = 0
  · simp only [ChaCha.fillBytes, h, if_true]
    rw [chunksLoop_length]
    omega
  · simp only [ChaCha.fillBytes, h, if_false]
    rw [List.length_append, chunksLoop_length, List.length_take, bytesOfU64s_length,
      block_fst, softBlockOut_length]
    omega

theorem fillBytes_exact (s : ChaCha) (len : Nat) (h : len % 256 = 0) :
    (ChaCha.fillBytes s len).2.2 = len / 256 ∧
    (ChaCha.fillBytes s len).2.1 = (chunksLoop (len / 256) s).2 := by
  constructor
  · rw [fillBytes_calls]
    omega
  · simp only [ChaCha.fillBytes, h, if_true]

/-! ### Lemire bounded sampling -/

theorem wideMul_fst_lt (w max : Nat) (hw : w < 2 ^ 64) (hm : 0 < max) :
    (wideMul w max).1 < max := by
  simp only [wideMul]
  rw [Nat.div_lt_iff_lt_mul (by positivity)]
  by_cases hc : w * max < 2 ^ 128
  · rw [Nat.mod_eq_of_lt hc]
    exact lt_of_lt_of_le (mul_lt_mul_of_pos_right hw hm) (le_of_eq (Nat.mul_comm _ _))
  · push_neg at hc
    have h64 : 2 ^ 64 ≤ max := by
      by_contra hmax
      push_neg at hmax
      have hlt : w * max < 2 ^ 128 := by
        calc w * max ≤ w * 2 ^ 64 := Nat.mul_le_mul_left w (le_of_lt hmax)
          _ < 2 ^ 64 * 2 ^ 64 := mul_lt_mul_of_pos_right hw (by positivity)
          _ = 2 ^ 128 := by norm_num
      omega
    calc w * max % 2 ^ 128 < 2 ^ 128 := Nat.mod_lt _ (by positivity)
      _ = 2 ^ 64 * 2 ^ 64 := by norm_num
      _ ≤ max * 2 ^ 64 := Nat.mul_le_mul_right _ h64

theorem lemireLoop_lt : ∀ (fuel : Nat) (g : WordSrc) (high low max threshold : Nat),
    high < max → (lemireLoop fuel g high low max threshold).1 < max
  | 0, _, _, _, _, _, h => h
  | fuel + 1, g, high, low, max, threshold, h => by
    simp only [lemireLoop]
    split
    · exact lemireLoop_lt fuel _ _ _ _ _
        (wideMul_fst_lt _ _ (g.stream g.pos).isLt (lt_of_le_of_lt (Nat.zero_le high) h))
    · exact h

theorem bound_lt (fuel : Nat) (g : WordSrc) (max : Nat) (hm : 0 < max) :
    (Generator.bound fuel g max).1 < max := by
  have hw := (g.stream g.pos).isLt
  simp only [Generator.bound, WordSrc.next]
  split
  · exact lemireLoop_lt fuel _ _ _ _ _ (wideMul_fst_lt _ _ hw hm)
  · exact wideMul_fst_lt _ _ hw hm

theorem bound_zero (fuel : Nat) (g : WordSrc) : (Generator.bound fuel g 0).1 = 0 := by
  simp [Generator.bound, wideMul, WordSrc.next]

/-! ### bits -/

theorem bits_lt (g : WordSrc) (n : Nat) (h1 : 1 ≤ n) (hn : n ≤ 64) :
    (Generator.bits g n).1 < 2 ^ n := by
  simp only [Generator.bits, WordSrc.next]
  have hw := (g.stream g.pos).isLt
  have hmask : (64 - min n 64) % 64 = 64 - n := by omega
  rw [hmask, Nat.shiftRight_eq_div_pow, Nat.div_lt_iff_lt_mul (by positivity)]
  calc (g.stream g.pos).val < 2 ^ 64 := hw
    _ = 2 ^ n * 2 ^ (64 - n) := by
      rw [← pow_add]
      congr 1
      omega

/-! ### Fisher–Yates shuffle is a permutation -/

theorem listSwap_length {α : Type} [Inhabited α] (l : List α) (i j : Nat) :
    (listSwap l i j).length = l.length := by
  simp [listSwap]

theorem getD_cons_swap_perm {α : Type} [Inhabited α] : ∀ (t : List α) (k : Nat) (x : α),
    k < t.length → ((t.getD k default) :: t.set k x).Perm (x :: t)
  | b :: s, 0, x, _ => by
    simp only [List.getD_cons_zero, List.set_cons_zero]
    exact List.Perm.swap x b s
  | b :: s, k + 1, x, h => by
    simp only [List.getD_cons_succ, List.set_cons_succ]
    have hk : k < s.length := by
      simp only [List.length_cons] at h
      omega
    refine List.Perm.trans (List.Perm.swap b (s.getD k default) (s.set k x)) ?_
    refine List.Perm.trans ((getD_cons_swap_perm s k x hk).cons b) ?_
    exact List.Perm.swap x b s

theorem listSwap_perm {α : Type} [Inhabited α] : ∀ (l : List α) (i j : Nat),
    i < l.length → j < l.length → (listSwap l i j).Perm l
  | [], i, _, hi, _ => absurd hi (by simp)
  | a :: t, 0, 0, _, _ => by
    simp only [listSwap, List.getD_cons_zero, List.set_cons_zero]
    exact List.Perm.refl _
  | a :: t, 0, j + 1, _, hj => by
    have hj2 : j < t.length := by
      simp only [List.length_cons] at hj
      omega
    simp only [listSwap, List.getD_cons_succ, List.getD_cons_zero, List.set_cons_zero,
      List.set_cons_succ]
    exact getD_cons_swap_perm t j a hj2
  | a :: t, i + 1, 0, hi, _ => by
    have hi2 : i < t.length := by
      simp only [List.length_cons] at hi
      omega
    simp only [listSwap, List.getD_cons_succ, List.getD_cons_zero, List.set_cons_zero,
      List.set_cons_succ]
    exact getD_cons_swap_perm t i a hi2
  | a :: t, i + 1, j + 1, hi, hj => by
    have hi2 : i < t.length := by
      simp only [List.length_cons] at hi
      omega
    have hj2 : j < t.length := by
      simp only [List.length_cons] at hj
      omega
    simp only [listSwap, List.getD_cons_succ, List.set_cons_succ]
    exact (listSwap_perm t i j hi2 hj2).cons a

theorem shuffleGo_spec {α : Type} [Inhabited α] (fuel : Nat) : ∀ (i : Nat) (g : WordSrc)
    (l : List α) (acc : List (Nat × Nat)), i < l.length →
    (shuffleGo fuel i g l acc).1.Perm l ∧
    ∀ p ∈ (shuffleGo fuel i g l acc).2.2, p ∈ acc ∨ (p.2 ≤ p.1 ∧ p.1 < l.length)
  | 0, _, l, acc, _ => ⟨List.Perm.refl l, fun _ hp => Or.inl hp⟩
  | i + 1, g, l, acc, hi => by
    have hj : (Generator.boundInclusive fuel g (i + 1)).1 < i + 2 :=
      bound_lt fuel g (i + 2) (by omega)
    have hlen : i < (listSwap l (i + 1) (Generator.boundInclusive fuel g (i + 1)).1).length := by
      rw [listSwap_length]
      omega
    have hswap := listSwap_perm l (i + 1) (Generator.boundInclusive fuel g (i + 1)).1 hi
      (by omega)
    have hrec := shuffleGo_spec fuel i (Generator.boundInclusive fuel g (i + 1)).2
      (listSwap l (i + 1) (Generator.boundInclusive fuel g (i + 1)).1)
      ((i + 1, (Generator.boundInclusive fuel g (i + 1)).1) :: acc) hlen
    refine ⟨hrec.1.trans hswap, ?_⟩
    intro p hp
    rcases hrec.2 p hp with hacc | hgood
    · rcases List.mem_cons.mp hacc with heq | hmem
      · right
        subst heq
        exact ⟨by omega, hi⟩
      · exact Or.inl hmem
    · right
      rw [listSwap_length] at hgood
      exact hgood

theorem shuffle_spec {α : Type} [Inhabited α] (fuel : Nat) (g : WordSrc) (l : List α) :
    (Generator.shuffle fuel g l).1.Perm l ∧
    ∀ p ∈ (Generator.shuffle fuel g l).2.2, p.2 ≤ p.1 ∧ p.1 < l.length := by
  match hl : l with
  | [] => exact ⟨List.Perm.refl _, by intro p hp; simp [Generator.shuffle, shuffleGo] at hp⟩
  | a :: t =>
    have hlen : (a :: t).length - 1 < (a :: t).length := by simp
    have h := shuffleGo_spec fuel ((a :: t).length - 1) g (a :: t) [] hlen
    refine ⟨h.1, ?_⟩
    intro p hp
    rcases h.2 p hp with habs | hgood
    · exact absurd habs (List.not_mem_nil p)
    · exact hgood


/-! ### Concrete states and the published ChaCha8 reference vectors
(`secure/util.rs`, test module; keystreams from the secworks
chacha_testvectors collection) -/

/-- The all-zero 48-byte state (`ChaCha::default()`). -/
def chZero : ChaCha := mkState 0 0 0 0 0 0 0 0 0 0 0 0

/-- First key byte 1, rest zero (`state.row_b.i8x16[0] = 1`). -/
def chKey1 : ChaCha := mkState 1 0 0 0 0 0 0 0 0 0 0 0

/-- First nonce byte 1, rest zero (`state.row_d.i8x16[8] = 1`). -/
def chNonce1 : ChaCha := mkState 0 0 0 0 0 0 0 0 0 0 1 0

/-- All key/nonce bits set, counter zero
(`row_b = row_c = [!0, !0]`, `row_d = [0, !0]`). -/
def chAllSet : ChaCha :=
  mkState 0xFFFFFFFF 0xFFFFFFFF 0xFFFFFFFF 0xFFFFFFFF
          0xFFFFFFFF 0xFFFFFFFF 0xFFFFFFFF 0xFFFFFFFF
          0 0 0xFFFFFFFF 0xFFFFFFFF

/-- A state whose low counter word is `2 ^ 32 - 1`, so the per-lane counter
offsets carry into the high counter word. -/
def chCarry : ChaCha := mkState 0 0 0 0 0 0 0 0 0xFFFFFFFF 0 0 0

def ksZero0 : List Nat :=
  [0x3e, 0x00, 0xef, 0x2f, 0x89, 0x5f, 0x40, 0xd6,
   0x7f, 0x5b, 0xb8, 0xe8, 0x1f, 0x09, 0xa5, 0xa1,
   0x2c, 0x84, 0x0e, 0xc3, 0xce, 0x9a, 0x7f, 0x3b,
   0x18, 0x1b, 0xe1, 0x88, 0xef, 0x71, 0x1a, 0x1e,
   0x98, 0x4c, 0xe1, 0x72, 0xb9, 0x21, 0x6f, 0x41,
   0x9f, 0x44, 0x53, 0x67, 0x45, 0x6d, 0x56, 0x19,
   0x31, 0x4a, 0x42, 0xa3, 0xda, 0x86, 0xb0, 0x01,
   0x38, 0x7b, 0xfd, 0xb8, 0x0e, 0x0c, 0xfe, 0x42]

def ksZero1 : List Nat :=
  [0xd2, 0xae, 0xfa, 0x0d, 0xea, 0xa5, 0xc1, 0x51,
   0xbf, 0x0a, 0xdb, 0x6c, 0x01, 0xf2, 0xa5, 0xad,
   0xc0, 0xfd, 0x58, 0x12, 0x59, 0xf9, 0xa2, 0xaa,
   0xdc, 0xf2, 0x0f, 0x8f, 0xd5, 0x66, 0xa2, 0x6b,
   0x50, 0x32, 0xec, 0x38, 0xbb, 0xc5, 0xda, 0x98,
   0xee, 0x0c, 0x6f, 0x56, 0x8b, 0x87, 0x2a, 0x65,
   0xa0, 0x8a, 0xbf, 0x25, 0x1d, 0xeb, 0x21, 0xbb,
   0x4b, 0x56, 0xe5, 0xd8, 0x82, 0x1e, 0x68, 0xaa]

def ksKey0 : List Nat :=
  [0xcf, 0x5e, 0xe9, 0xa0, 0x49, 0x4a, 0xa9, 0x61,
   0x3e, 0x05, 0xd5, 0xed, 0x72, 0x5b, 0x80, 0x4b,
   0x12, 0xf4, 0xa4, 0x65, 0xee, 0x63, 0x5a, 0xcc,
   0x3a, 0x31, 0x1d, 0xe8, 0x74, 0x04, 0x89, 0xea,
   0x28, 0x9d, 0x04, 0xf4, 0x3c, 0x75, 0x18, 0xdb,
   0x56, 0xeb, 0x44, 0x33, 0xe4, 0x98, 0xa1, 0x23,
   0x8c, 0xd8, 0x46, 0x4d, 0x37, 0x63, 0xdd, 0xbb,
   0x92, 0x22, 0xee, 0x3b, 0xd8, 0xfa, 0xe3, 0xc8]

def ksKey1 : List Nat :=
  [0xb4, 0x35, 0x5a, 0x7d, 0x93, 0xdd, 0x88, 0x67,
   0x08, 0x9e, 0xe6, 0x43, 0x55, 0x8b, 0x95, 0x75,
   0x4e, 0xfa, 0x2b, 0xd1, 0xa8, 0xa1, 0xe2, 0xd7,
   0x5b, 0xcd, 0xb3, 0x20, 0x15, 0x54, 0x26, 0x38,
   0x29, 0x19, 0x41, 0xfe, 0xb4, 0x99, 0x65, 0x58,
   0x7c, 0x4f, 0xdf, 0xe2, 0x19, 0xcf, 0x0e, 0xc1,
   0x32, 0xa6, 0xcd, 0x4d, 0xc0, 0x67, 0x39, 0x2e,
   0x67, 0x98, 0x2f, 0xe5, 0x32, 0x78, 0xc0, 0xb4]

def ksNonce0 : List Nat :=
  [0x2b, 0x8f, 0x4b, 0xb3, 0x79, 0x83, 0x06, 0xca,
   0x51, 0x30, 0xd4, 0x7c, 0x4f, 0x8d, 0x4e, 0xd1,
   0x3a, 0xa0, 0xed, 0xcc, 0xc1, 0xbe, 0x69, 0x42,
   0x09, 0x0f, 0xae, 0xec, 0xa0, 0xd7, 0x59, 0x9b,
   0x7f, 0xf0, 0xfe, 0x61, 0x6b, 0xb2, 0x5a, 0xa0,
   0x15, 0x3a, 0xd6, 0xfd, 0xc8, 0x8b, 0x95, 0x49,
   0x03, 0xc2, 0x24, 0x26, 0xd4, 0x78, 0xb9, 0x7b,
   0x22, 0xb8, 0xf9, 0xb1, 0xdb, 0x00, 0xcf, 0x06]

def ksNonce1 : List Nat :=
  [0x47, 0x0b, 0xdf, 0xfb, 0xc4, 0x88, 0xa8, 0xb7,
   0xc7, 0x01, 0xeb, 0xf4, 0x06, 0x1d, 0x75, 0xc5,
   0x96, 0x91, 0x86, 0x49, 0x7c, 0x95, 0x36, 0x78,
   0x09, 0xaf, 0xa8, 0x0b, 0xd8, 0x43, 0xb0, 0x40,
   0xa7, 0x9a, 0xbc, 0x6e, 0x73, 0xa9, 0x17, 0x57,
   0xf1, 0xdb, 0x73, 0xc8, 0xea, 0xcf, 0xa5, 0x43,
   0xb3, 0x8f, 0x28, 0x9d, 0x06, 0x5a, 0xb2, 0xf3,
   0x03, 0x2d, 0x37, 0x7b, 0x8c, 0x37, 0xfe, 0x46]

def ksSet0 : List Nat :=
  [0xe1, 0x63, 0xbb, 0xf8, 0xc9, 0xa7, 0x39, 0xd1,
   0x89, 0x25, 0xee, 0x83, 0x62, 0xda, 0xd2, 0xcd,
   0xc9, 0x73, 0xdf, 0x05, 0x22, 0x5a, 0xfb, 0x2a,
   0xa2, 0x63, 0x96, 0xf2, 0xa9, 0x84, 0x9a, 0x4a,
   0x44, 0x5e, 0x05, 0x47, 0xd3, 0x1c, 0x16, 0x23,
   0xc5, 0x37, 0xdf, 0x4b, 0xa8, 0x5c, 0x70, 0xa9,
   0x88, 0x4a, 0x35, 0xbc, 0xbf, 0x3d, 0xfa, 0xb0,
   0x77, 0xe9, 0x8b, 0x0f, 0x68, 0x13, 0x5f, 0x54]

def ksSet1 : List Nat :=
  [0x81, 0xd4, 0x93, 0x3f, 0x8b, 0x32, 0x2a, 0xc0,
   0xcd, 0x76, 0x2c, 0x27, 0x23, 0x5c, 0xe2, 0xb3,
   0x15, 0x34, 0xe0, 0x24, 0x4a, 0x9a, 0x2f, 0x1f,
   0xd5, 0xe9, 0x44, 0x98, 0xd4, 0x7f, 0xf1, 0x08,
   0x79, 0x0c, 0x00, 0x9c, 0xf9, 0xe1, 0xa3, 0x48,
   0x03, 0x2a, 0x76, 0x94, 0xcb, 0x28, 0x02, 0x4c,
   0xd9, 0x6d, 0x34, 0x98, 0x36, 0x1e, 0xdb, 0x17,
   0x85, 0xaf, 0x75, 0x2d, 0x18, 0x7a, 0xb5, 0x4b]


/-! ### Claim theorems -/

/-- C1: the spec claims the Soft, SSE2, AVX2, AVX512 and NEON backends
produce the same `[u64; 32]` block for every 48-byte state.  Soft, SSE2 and
AVX2 do agree on every state; but the NEON backend adds its per-lane counter
offsets to the first nonce word of row D (the reinterpreted
`vcombine_u64(vcreate_u64(0), vcreate_u64(k))` addend is `[0, 0, k, 0]`), so
it diverges from Soft already on the all-zero seed; and the AVX512 backend
applies its lane offsets with a carry-less 32-bit addition
(`_mm512_add_epi32`), so it diverges from Soft whenever the low counter word
is within 3 of `2 ^ 32` (while agreeing on the all-zero seed, which is why
the repository's own tests, which always start the counter at 0, do not
catch it). -/
theorem backend_equivalence_and_divergence :
    (∀ s : ChaCha, sse2BlockOut s = softBlockOut s) ∧
    (∀ s : ChaCha, avx2BlockOut s = softBlockOut s) ∧
    neonBlockOut chZero ≠ softBlockOut chZero ∧
    avx512BlockOut chCarry ≠ softBlockOut chCarry ∧
    avx512BlockOut chZero = softBlockOut chZero :=
  ⟨sse2_block_eq_soft, avx2_block_eq_soft, by decide, by decide, by decide⟩

/-- C2: for each of the four canonical seed scenarios (all-zero state; first
key byte 1; first nonce byte 1; all key/nonce bits set with counter 0) the
first two 64-byte keystream blocks of the `[u64; 32]` output of
`ChaCha::block` equal the published ChaCha8 reference vectors byte for
byte. -/
theorem chacha_reference_vectors :
    ((bytesOfU64s (softBlockOut chZero)).take 64 = ksZero0 ∧
     ((bytesOfU64s (softBlockOut chZero)).drop 64).take 64 = ksZero1) ∧
    ((bytesOfU64s (softBlockOut chKey1)).take 64 = ksKey0 ∧
     ((bytesOfU64s (softBlockOut chKey1)).drop 64).take 64 = ksKey1) ∧
    ((bytesOfU64s (softBlockOut chNonce1)).take 64 = ksNonce0 ∧
     ((bytesOfU64s (softBlockOut chNonce1)).drop 64).take 64 = ksNonce1) ∧
    ((bytesOfU64s (softBlockOut chAllSet)).take 64 = ksSet0 ∧
     ((bytesOfU64s (softBlockOut chAllSet)).drop 64).take 64 = ksSet1) := by
  refine ⟨⟨?_, ?_⟩, ⟨?_, ?_⟩, ⟨?_, ?_⟩, ⟨?_, ?_⟩⟩ <;> decide

/-- C3: after `n` calls to `ChaCha::block` the stored 64-bit counter equals
the initial counter plus `4 * n` modulo `2 ^ 64`; in particular each single
`block` call advances it by exactly 4 with wrapping (defined) arithmetic. -/
theorem counter_advance_law :
    (∀ (n : Nat) (s : ChaCha), (ChaCha.blockIter n s).counter = (s.counter + 4 * n) % 2 ^ 64) ∧
    (∀ s : ChaCha, (ChaCha.block s).2.counter = (s.counter + 4) % 2 ^ 64) :=
  ⟨counter_blockIter, fun s => by rw [block_snd]; exact counter_advance s⟩

/-- C4: `Generator::bound(max)` (Lemire's nearly-divisionless method, with
the rejection loop's threshold `(-max) mod max` computed only inside the
`low < max` branch) returns 0 when `max = 0` and a value strictly below
`max` when `max > 0`, for every word-source state and every iteration budget
of the rejection loop. -/
theorem bound_spec (fuel : Nat) (g : WordSrc) (max : Nat) :
    (max = 0 → (Generator.bound fuel g max).1 = 0) ∧
    (0 < max → (Generator.bound fuel g max).1 < max) :=
  ⟨fun h => h ▸ bound_zero fuel g, fun h => bound_lt fuel g max h⟩

/-- Fixed example word source for the witnesses: every draw is 7. -/
def gSeven : WordSrc := ⟨fun _ => ⟨7, by decide⟩, 0⟩

/-- C4 witness: `bound` evaluated at a concrete source and bounds. -/
theorem bound_spec_witness :
    (Generator.bound 1 gSeven 5).1 < 5 ∧ (Generator.bound 1 gSeven 0).1 = 0 :=
  ⟨(bound_spec 1 gSeven 5).2 (by decide), (bound_spec 1 gSeven 0).1 rfl⟩

/-- C5 counterexample: the claim as stated covers `n = 0`, but there the
source computes `w >> 64`, a shift overflow: debug builds panic and release
builds mask the amount to 0 and return the full 64-bit word, which is not
below `2 ^ 0 = 1` (here the fresh word is 7). -/
theorem bits_zero_counterexample : ¬ (Generator.bits gSeven 0).1 < 2 ^ 0 := by decide

/-- C5 (amended): `Generator::bits(n)` right-shifts one fresh word by
`64 - n` (with `n` clamped to 64) and the result is strictly below `2 ^ n`
for every `1 ≤ n ≤ 64` and every word-source state; the `n = 0` case of the
original claim fails because the shift amount overflows (debug panic,
release masks it to 0). -/
theorem bits_spec (g : WordSrc) (n : Nat) (h1 : 1 ≤ n) (hn : n ≤ 64) :
    (Generator.bits g n).1 < 2 ^ n :=
  bits_lt g n h1 hn

/-- C5 witness: `bits` evaluated at a concrete source and bit count. -/
theorem bits_spec_witness : 1 ≤ 3 ∧ 3 ≤ 64 ∧ (Generator.bits gSeven 3).1 < 2 ^ 3 :=
  ⟨by decide, by decide, bits_spec gSeven 3 (by decide) (by decide)⟩

/-- C6: starting from a freshly constructed `SecureRng`, `k` calls of
`u64()` trigger exactly `(k + 31) / 32 - 1` additional `ChaCha::block`
refills (one per 32 calls: the 33rd, 65th, ... calls refill, every other
call only reads the buffer), and each refill advances the stored counter by
exactly 4 on top of the one `block` call made by `try_new`. -/
theorem refill_cadence (s : ChaCha) (k : Nat) :
    SecureRng.refillCount k (SecureRng.init s) = (k + 31) / 32 - 1 ∧
    (SecureRng.steps k (SecureRng.init s)).internal.counter =
      (s.counter + 4 * (1 + SecureRng.refillCount k (SecureRng.init s))) % 2 ^ 64 := by
  have hb : (ChaCha.block s).1.length = 32 := by
    rw [block_fst]
    exact softBlockOut_length s
  have h := refill_invariant k 0 (ChaCha.block s).1 (ChaCha.block s).2 (by omega) hb
  have hadv : (ChaCha.block s).2.counter = (s.counter + 4) % 2 ^ 64 := by
    rw [block_snd]
    exact counter_advance s
  constructor
  · rw [show SecureRng.init s = ⟨0, (ChaCha.block s).1, (ChaCha.block s).2⟩ from rfl, h.1]
  · rw [show SecureRng.init s = ⟨0, (ChaCha.block s).1, (ChaCha.block s).2⟩ from rfl, h.2,
      hadv, h.1]
    omega

/-- C7: `fill_bytes` on a destination of `len` bytes performs exactly
`⌈len / 256⌉` `ChaCha::block` calls (each advancing the counter by 4),
produces exactly `len` bytes, and when `len` is an exact multiple of 256 the
final state is that of the direct-chunk loop alone — no partial scratch
block is generated. -/
theorem fillBytes_spec (s : ChaCha) (len : Nat) :
    (ChaCha.fillBytes s len).2.2 = (len + 255) / 256 ∧
    (ChaCha.fillBytes s len).2.1.counter = (s.counter + 4 * ((len + 255) / 256)) % 2 ^ 64 ∧
    (ChaCha.fillBytes s len).1.length = len ∧
    (len % 256 = 0 → (ChaCha.fillBytes s len).2.1 = (chunksLoop (len / 256) s).2) :=
  ⟨fillBytes_calls s len, fillBytes_counter s len, fillBytes_length s len,
   fun h => (fillBytes_exact s len h).2⟩

/-- C7 witness: a 512-byte fill is two direct blocks and no scratch block. -/
theorem fillBytes_spec_witness :
    512 % 256 = 0 ∧ (ChaCha.fillBytes chZero 512).2.1 = (chunksLoop (512 / 256) chZero).2 ∧
    (ChaCha.fillBytes chZero 512).2.2 = 2 :=
  ⟨by decide, (fillBytes_spec chZero 512).2.2.2 (by decide),
   by rw [(fillBytes_spec chZero 512).1]⟩

/-- C8: `Generator::shuffle` permutes the slice — the output is a
permutation of the input list — and every swap it performs uses indices
`j ≤ i < len`, so every access is in bounds; for every word-source state and
every rejection-loop budget. -/
theorem shuffle_is_permutation {α : Type} [Inhabited α] (fuel : Nat) (g : WordSrc)
    (l : List α) :
    (Generator.shuffle fuel g l).1.Perm l ∧
    ∀ p ∈ (Generator.shuffle fuel g l).2.2, p.2 ≤ p.1 ∧ p.1 < l.length :=
  shuffle_spec fuel g l

/-- C8 witness: a concrete three-element shuffle is a permutation. -/
theorem shuffle_is_permutation_witness :
    (Generator.shuffle 1 gSeven [10, 20, 30]).1.Perm [10, 20, 30] :=
  (shuffle_is_permutation 1 gSeven [10, 20, 30]).1

/-- C9: the cursor invariant of `SecureRng`: after `try_new` the cursor is
0; and from any state with cursor in `[0, 32]` over the 32-word buffer, one
`u64()` call reads the buffer at a position strictly below 32 (the access is
always in bounds) and leaves the cursor in `[0, 32]` over a 32-word
buffer. -/
theorem cursor_invariant :
    (∀ s : ChaCha, (SecureRng.init s).index = 0) ∧
    (∀ r : SecureRng, r.index ≤ 32 → r.buf.length = 32 →
      (r.u64Full).2.1 < 32 ∧ (r.u64Full).2.2.index ≤ 32 ∧
      (r.u64Full).2.2.buf.length = 32) := by
  refine ⟨fun s => rfl, fun r hi hl => ?_⟩
  obtain ⟨i, bl, st⟩ := r
  simp only at hi hl
  by_cases hb : bl.length ≤ i
  · rw [u64Full_refill i bl st hb]
    refine ⟨by dsimp only; omega, by dsimp only; omega, ?_⟩
    dsimp only
    rw [block_fst]
    exact softBlockOut_length st
  · rw [u64Full_read i bl st hb]
    refine ⟨by dsimp only; omega, by dsimp only; omega, by dsimp only; exact hl⟩

/-- C9 witness: the invariant evaluated on a freshly constructed
generator. -/
theorem cursor_invariant_witness :
    (SecureRng.init chZero).index = 0 ∧
    ((SecureRng.init chZero).u64Full).2.1 < 32 ∧
    ((SecureRng.init chZero).u64Full).2.2.index ≤ 32 :=
  ⟨cursor_invariant.1 chZero,
   (cursor_invariant.2 (SecureRng.init chZero) (by decide) (by decide)).1,
   (cursor_invariant.2 (SecureRng.init chZero) (by decide) (by decide)).2.1⟩

/-- C10: frame effect of `ChaCha::block`: the key rows B and C and the nonce
half of row D are left unchanged; the only mutation of the stored state is
the wrapping increment of the 64-bit counter by 4. -/
theorem block_frame_effect (s : ChaCha) :
    (ChaCha.block s).2.b0 = s.b0 ∧ (ChaCha.block s).2.b1 = s.b1 ∧
    (ChaCha.block s).2.b2 = s.b2 ∧ (ChaCha.block s).2.b3 = s.b3 ∧
    (ChaCha.block s).2.c0 = s.c0 ∧ (ChaCha.block s).2.c1 = s.c1 ∧
    (ChaCha.block s).2.c2 = s.c2 ∧ (ChaCha.block s).2.c3 = s.c3 ∧
    (ChaCha.block s).2.d2 = s.d2 ∧ (ChaCha.block s).2.d3 = s.d3 ∧
    (ChaCha.block s).2.counter = (s.counter + 4) % 2 ^ 64 := by
  rw [block_snd]
  exact ⟨rfl, rfl, rfl, rfl, rfl, rfl, rfl, rfl, rfl, rfl, counter_advance s⟩

end YaRand
